import Mathlib

/-!
Verification of the PR-analysis pipeline of the `ai-code-review-assistant`
backend (services `diff_parser.py`, `analyzer_service.py`, `llm_service.py`,
task `analysis.py`).  The Python functions are shallowly embedded as
executable Lean functions; Python `float` arithmetic is modelled over `ℚ`,
Python's banker's rounding (`round`) as `pyRound`, Python exceptions as
`Except String`.
-/

namespace CodeReview


/-- `models.FindingSeverity` (five members, string enum). -/
inductive FindingSeverity where
  | critical | high | medium | low | info
deriving DecidableEq, Repr

/-- `models.FindingCategory` (six members, string enum). -/
inductive FindingCategory where
  | bug | security | performance | style | best_practice | documentation
deriving DecidableEq, Repr

/-- `models.RunStatus`. -/
inductive RunStatus where
  | pending | running | completed | failed
deriving DecidableEq, Repr

/-- The `.value` string of a `FindingCategory` member. -/
def categoryValue : FindingCategory → String
  | .bug => "bug"
  | .security => "security"
  | .performance => "performance"
  | .style => "style"
  | .best_practice => "best_practice"
  | .documentation => "documentation"

/-- A candidate finding, as the dicts produced by `AnalyzerService` /
`LLMService._parse_llm_response` and consumed by `deduplicate_findings`.
Python's `is_ai_generated` 0/1 integer flag is modelled as `Bool`. -/
structure Finding where
  file_path : String
  line_number : Int
  severity : FindingSeverity
  category : FindingCategory
  rule_id : String
  title : String
  description : String
  suggestion : String
  code_snippet : String
  is_ai_generated : Bool
deriving DecidableEq, Repr

/-- A `FileChange` entry of `diff_data` as returned by the GitHub
collaborator (`filename`, nullable `patch`, line counts). -/
structure FileData where
  filename : String
  patch : Option String
  additions : Nat
  deletions : Nat
deriving DecidableEq, Repr

/-! ## Python `round` (banker's rounding) over `ℚ` -/

/-- Python 3 `round(q)` : round half to even, as an integer. -/
def pyRound (q : ℚ) : ℤ :=
  if q - (⌊q⌋ : ℚ) < 1/2 then ⌊q⌋
  else if 1/2 < q - (⌊q⌋ : ℚ) then ⌊q⌋ + 1
  else if ⌊q⌋ % 2 = 0 then ⌊q⌋ else ⌊q⌋ + 1

/-! ## `DiffParser.parse_patch` (`services/diff_parser.py`) -/

/-- `needle` is a prefix of `haystack` (structural, kernel-evaluable). -/
def listLead : List Char → List Char → Bool
  | [], _ => true
  | _ :: _, [] => false
  | a :: as, b :: bs => a == b && listLead as bs

/-- `s.startswith(pre)`. -/
def startsWithStr (pre s : String) : Bool := listLead pre.data s.data

/-- `s.endswith(suf)`. -/
def endsWithStr (suf s : String) : Bool := listLead suf.data.reverse s.data.reverse

/-- `s[n:]` (character-based, as Python slicing). -/
def strDrop (n : Nat) (s : String) : String := ⟨s.data.drop n⟩

/-- `patch.split('\n')` — the list of lines, keeping empty segments
(`"".split('\n') == [""]`, a trailing newline yields a final `""`). -/
def splitNlAux : List Char → List Char → List String
  | [], acc => [⟨acc.reverse⟩]
  | '\n' :: rest, acc => (⟨acc.reverse⟩ : String) :: splitNlAux rest []
  | c :: rest, acc => splitNlAux rest (c :: acc)

def splitNl (s : String) : List String := splitNlAux s.data []

/-- `'\n'.join(lines)`. -/
def joinNl : List String → String
  | [] => ""
  | [s] => s
  | s :: rest => s ++ "\n" ++ joinNl rest

/-- Python `\s` on the ASCII range (lines are already split on `'\n'`). -/
def isPySpace (c : Char) : Bool :=
  c = ' ' || c = '\t' || c = '\n' || c = '\r' || c = '\x0b' || c = '\x0c'

/-- Maximal run of ASCII digits, accumulating the decimal value. -/
def readDigits (acc : Nat) : List Char → Nat × List Char
  | [] => (acc, [])
  | c :: cs =>
    if c.isDigit then readDigits (acc * 10 + (c.toNat - '0'.toNat)) cs
    else (acc, c :: cs)

/-- `\d+` : one or more digits (greedy). -/
def takeDigits1 : List Char → Option (Nat × List Char)
  | [] => none
  | c :: cs =>
    if c.isDigit then some (readDigits (c.toNat - '0'.toNat) cs) else none

/-- `\s+` : one or more whitespace characters (greedy). -/
def skipSpaces1 : List Char → Option (List Char)
  | [] => none
  | c :: cs => if isPySpace c then some (cs.dropWhile isPySpace) else none

/-- `(?:,(\d+))?` : an optional `,count` group. -/
def takeOptCount : List Char → Option Nat × List Char
  | ',' :: cs =>
    (match takeDigits1 cs with
     | some (n, rest) => (some n, rest)
     | none => (none, ',' :: cs))
  | cs => (none, cs)

/-- `re.match(r'^@@\s+-(\d+)(?:,(\d+))?\s+\+(\d+)(?:,(\d+))?\s+@@', line)`,
returning `(old_start, old_count, new_start, new_count)` with missing counts
defaulting to 1.  The regex is deterministic (no digit can satisfy `,` or
`\s`), so greedy scanning without backtracking is faithful. -/
def parseHunkHeader (line : String) : Option (Nat × Nat × Nat × Nat) :=
  match line.data with
  | '@' :: '@' :: rest =>
    match skipSpaces1 rest with
    | none => none
    | some rest =>
      match rest with
      | '-' :: rest =>
        match takeDigits1 rest with
        | none => none
        | some (oldStart, rest) =>
          let oc := takeOptCount rest
          match skipSpaces1 oc.2 with
          | none => none
          | some rest =>
            match rest with
            | '+' :: rest =>
              match takeDigits1 rest with
              | none => none
              | some (newStart, rest) =>
                let nc := takeOptCount rest
                match skipSpaces1 nc.2 with
                | none => none
                | some rest =>
                  match rest with
                  | '@' :: '@' :: _ =>
                    some (oldStart, oc.1.getD 1, newStart, nc.1.getD 1)
                  | _ => none
            | _ => none
      | _ => none
  | _ => none

/-- One hunk of a parsed patch. -/
structure Hunk where
  old_start : Nat
  old_count : Nat
  new_start : Nat
  new_count : Nat
  added : List (Nat × String)
  removed : List (Nat × String)
  context : List String
deriving DecidableEq, Repr

/-- `d[k] = v` on a Python dict kept as an insertion-ordered assoc list:
an existing key keeps its position, a fresh key is appended. -/
def dictSet (d : List (Nat × String)) (k : Nat) (v : String) :
    List (Nat × String) :=
  if d.any (fun p => p.1 == k) then
    d.map (fun p => if p.1 == k then (k, v) else p)
  else d ++ [(k, v)]

/-- The loop state of `parse_patch`. -/
structure PState where
  hunks : List Hunk
  added_lines : List (Nat × String)
  removed_lines : List (Nat × String)
  current : Option Hunk
  old_line_no : Nat
  new_line_no : Nat

/-- One iteration of the `for line in lines` loop of `parse_patch`. -/
def stepLine (s : PState) (line : String) : PState :=
  match parseHunkHeader line with
  | some (os, oc, ns, nc) =>
    { hunks := s.hunks ++ (match s.current with | some h => [h] | none => []),
      added_lines := s.added_lines,
      removed_lines := s.removed_lines,
      current := some { old_start := os, old_count := oc, new_start := ns,
                        new_count := nc, added := [], removed := [], context := [] },
      old_line_no := os, new_line_no := ns }
  | none =>
    match s.current with
    | none => s
    | some h =>
      if startsWithStr "+" line then
        let code := strDrop 1 line
        { s with
          added_lines := dictSet s.added_lines s.new_line_no code,
          current := some { h with added := h.added ++ [(s.new_line_no, code)],
                                   context := h.context ++ [line] },
          new_line_no := s.new_line_no + 1 }
      else if startsWithStr "-" line then
        let code := strDrop 1 line
        { s with
          removed_lines := dictSet s.removed_lines s.old_line_no code,
          current := some { h with removed := h.removed ++ [(s.old_line_no, code)],
                                   context := h.context ++ [line] },
          old_line_no := s.old_line_no + 1 }
      else if startsWithStr " " line then
        { s with current := some { h with context := h.context ++ [line] },
                 old_line_no := s.old_line_no + 1,
                 new_line_no := s.new_line_no + 1 }
      else s

/-- The result dict of `parse_patch`. -/
structure ParseResult where
  hunks : List Hunk
  added_lines : List (Nat × String)
  removed_lines : List (Nat × String)
  filename : String
deriving DecidableEq, Repr

/-- Flush the pending hunk at the end of the loop. -/
def finishState (s : PState) (filename : String) : ParseResult :=
  { hunks := s.hunks ++ (match s.current with | some h => [h] | none => []),
    added_lines := s.added_lines,
    removed_lines := s.removed_lines,
    filename := filename }

def initPState : PState := ⟨[], [], [], none, 0, 0⟩

/-- `DiffParser.parse_patch` for a non-null patch string (`if not patch`
short-circuits the empty string to an empty result). -/
def parse_patch (patch : String) (filename : String) : ParseResult :=
  if patch = "" then
    { hunks := [], added_lines := [], removed_lines := [], filename := filename }
  else finishState ((splitNl patch).foldl stepLine initPState) filename

/-! ## `AnalyzerService` (`services/analyzer_service.py`) -/

def code_extensions : List String :=
  [".py", ".js", ".jsx", ".ts", ".tsx", ".java", ".cpp", ".c",
   ".go", ".rb", ".php", ".swift", ".kt", ".rs", ".scala"]

/-- `AnalyzerService._is_code_file`. -/
def is_code_file (filename : String) : Bool :=
  code_extensions.any (fun ext => endsWithStr ext filename)

/-- `re.search(r'\+(\d+)', line)` : first `+` immediately followed by at
least one digit; returns the value of the digit run. -/
def searchPlusDigits : List Char → Option Nat
  | [] => none
  | '+' :: cs =>
    (match takeDigits1 cs with
     | some (n, _) => some n
     | none => searchPlusDigits cs)
  | _ :: cs => searchPlusDigits cs

/-- One iteration of the line-tracking loop of `AnalyzerService._check_file`
(lines 81–94): an `@@` line resets the counter to the first `+digits` group
found in it; a `+` line first increments the counter and then yields the
`(line_number, code)` pair the enabled checks are applied to. -/
def checkFileStep (acc : Nat × List (Nat × String)) (line : String) :
    Nat × List (Nat × String) :=
  if startsWithStr "@@" line then
    match searchPlusDigits line.data with
    | some n => (n, acc.2)
    | none => acc
  else if startsWithStr "+" line then
    (acc.1 + 1, acc.2 ++ [(acc.1 + 1, strDrop 1 line)])
  else acc

/-- The `(line_number, code)` pairs to which `_check_file` applies its
enabled checks, in order. -/
def check_file_pairs (patch : String) : List (Nat × String) :=
  ((splitNl patch).foldl checkFileStep (0, [])).2

/-- `AnalyzerService.analyze_diff`: files with a falsy patch or an
unrecognized extension are skipped; every enabled check is a pure function
of `(filename, line_number, code)`, abstracted here as `checks` — the
concatenation of the findings each check returns on one added line. -/
def analyze_diff_rules (checks : String → Nat → String → List Finding)
    (diff : List FileData) : List Finding :=
  diff.foldl (fun acc fd =>
    match fd.patch with
    | none => acc
    | some p =>
      if p = "" then acc
      else if is_code_file fd.filename then
        acc ++ (check_file_pairs p).flatMap (fun pr => checks fd.filename pr.1 pr.2)
      else acc) []

/-! ## Strictly increasing sequences (for C7) -/

/-- Boolean test: the list is strictly increasing. -/
def strictIncB : List Nat → Bool
  | [] => true
  | [_] => true
  | a :: b :: rest => decide (a < b) && strictIncB (b :: rest)

/-- Boolean test: every element is `< n`. -/
def allLtB (n : Nat) (xs : List Nat) : Bool := xs.all (fun x => decide (x < n))

/-- A hunk's recorded added line numbers are strictly increasing. -/
def hunkOk (h : Hunk) : Bool := strictIncB (h.added.map Prod.fst)

/-- Loop invariant for `parse_patch`: all finished hunks are `hunkOk`, and
the pending hunk is `hunkOk` with all recorded added lines below the
running `new_line_no` counter. -/
def stateOk (s : PState) : Bool :=
  s.hunks.all hunkOk &&
  (match s.current with
   | none => true
   | some h => hunkOk h && allLtB s.new_line_no (h.added.map Prod.fst))

/-! ## `deduplicate_findings` (`tasks/analysis.py`) -/

/-- The `severity_order` dict (lines 278–283): `INFO` has no entry, so
looking it up raises `KeyError`. -/
def severity_order : FindingSeverity → Option Nat
  | .critical => some 0
  | .high => some 1
  | .medium => some 2
  | .low => some 3
  | .info => none

/-- Spec-side total severity rank (`critical > high > medium > low > info`,
most severe first). -/
def sevRank : FindingSeverity → Nat
  | .critical => 0
  | .high => 1
  | .medium => 2
  | .low => 3
  | .info => 4

/-- The grouping key `(finding["file_path"], finding.get("line_number", 0))`. -/
def groupKey (f : Finding) : String × Int := (f.file_path, f.line_number)

/-- `grouped[key].append(finding)` on an insertion-ordered dict of lists. -/
def addToGroups : List ((String × Int) × List Finding) → Finding →
    List ((String × Int) × List Finding)
  | [], f => [(groupKey f, [f])]
  | (k, g) :: rest, f =>
    if k = groupKey f then (k, g ++ [f]) :: rest
    else (k, g) :: addToGroups rest f

/-- `grouped = defaultdict(list); for finding in findings: ...` -/
def groupByKey (fs : List Finding) : List ((String × Int) × List Finding) :=
  fs.foldl addToGroups []

/-- The sort keys `severity_order[f["severity"]]` computed for every group
member; the first member with `INFO` severity raises `KeyError`. -/
def severityKeys : List Finding → Except String (List (Nat × Finding))
  | [] => .ok []
  | f :: fs =>
    match severity_order f.severity with
    | none => .error "KeyError"
    | some k =>
      match severityKeys fs with
      | .error e => .error e
      | .ok rest => .ok ((k, f) :: rest)

/-- Stable insertion of a keyed element (later-inserted elements go after
equal keys), used to model Python's stable `sorted`. -/
def insByKey (p : Nat × Finding) : List (Nat × Finding) → List (Nat × Finding)
  | [] => [p]
  | q :: qs => if q.1 < p.1 then q :: insByKey p qs else p :: q :: qs

/-- Stable ascending sort by key — the unique stable sort, hence the result
of `sorted(group, key=lambda f: severity_order[f["severity"]])`. -/
def sortPairs : List (Nat × Finding) → List (Nat × Finding)
  | [] => []
  | p :: ps => insByKey p (sortPairs ps)

/-- `set(f["category"] for f in group)`, iterated in first-occurrence order
(CPython's set iteration order is unspecified; only membership matters for
the claims). -/
def distinctCats (g : List Finding) : List FindingCategory :=
  g.foldl (fun acc f => if f.category ∈ acc then acc else acc ++ [f.category]) []

/-- `', '.join(...)`. -/
def joinComma : List String → String
  | [] => ""
  | [s] => s
  | s :: rest => s ++ ", " ++ joinComma rest

/-- The multi-candidate branch of `deduplicate_findings`: sort by severity
order (raising `KeyError` on `INFO`), take the most severe candidate, and
append the "Additional concerns" note when the group spans more than one
category. -/
def mergeGroup (g : List Finding) : Except String Finding :=
  match severityKeys g with
  | .error e => .error e
  | .ok pairs =>
    match sortPairs pairs with
    | [] => .error "empty group"
    | (_, m) :: _ =>
      let cats := distinctCats g
      if 1 < cats.length then
        .ok { m with description := m.description ++ "\n\nAdditional concerns: " ++
                joinComma ((cats.filter (fun c => c ≠ m.category)).map categoryValue) }
      else .ok m

/-- `for (file_path, line_number), group in grouped.items(): ...` -/
def dedupGroups : List ((String × Int) × List Finding) → Except String (List Finding)
  | [] => .ok []
  | (_, g) :: rest =>
    match g with
    | [f] =>
      (match dedupGroups rest with
       | .error e => .error e
       | .ok out => .ok (f :: out))
    | _ =>
      match mergeGroup g with
      | .error e => .error e
      | .ok m =>
        match dedupGroups rest with
        | .error e => .error e
        | .ok out => .ok (m :: out)

/-- `deduplicate_findings` — `Except.error` models the uncaught Python
exception (`KeyError` for an unknown severity). -/
def deduplicate_findings (fs : List Finding) : Except String (List Finding) :=
  dedupGroups (groupByKey fs)

/-! ## Lemmas about the grouping pass -/

/-- `grouped[k]` (`[]` when absent). -/
def lookupGroup : List ((String × Int) × List Finding) → (String × Int) → List Finding
  | [], _ => []
  | (k0, g) :: rest, k => if k0 = k then g else lookupGroup rest k

/-- Well-formedness of the grouped dict: distinct keys, nonempty groups,
every group member carrying the group's key. -/
def GoodGroups (gs : List ((String × Int) × List Finding)) : Prop :=
  (gs.map Prod.fst).Nodup ∧ ∀ p ∈ gs, p.2 ≠ [] ∧ ∀ f ∈ p.2, groupKey f = p.1

/-- The first element achieving the minimal key (Python's stable sort puts
it first). -/
def firstMinPair : List (Nat × Finding) → Option (Nat × Finding)
  | [] => none
  | p :: ps =>
    match firstMinPair ps with
    | none => some p
    | some m => if m.1 < p.1 then some m else some p

/-- Spec-side "most severe candidate, ties broken by input order". -/
def firstBySeverity : List Finding → Option Finding
  | [] => none
  | f :: fs =>
    match firstBySeverity fs with
    | none => some f
    | some m => if sevRank m.severity < sevRank f.severity then some m else some f

/-! ## `LLMService.compute_risk_score` (`services/llm_service.py`, lines 561–646)

Python float arithmetic is modelled over `ℚ`; every quantity appearing here
(`x.5` bounds, halves, fifths) is exactly representable as a double, so the
`ℚ` model agrees with the float computation on all rounding boundaries. -/

/-- Python `needle in haystack` on strings (contiguous substring). -/
def listHasSub (needle : List Char) : List Char → Bool
  | [] => listLead needle []
  | c :: cs => listLead needle (c :: cs) || listHasSub needle cs

def strHasSub (needle haystack : String) : Bool :=
  listHasSub needle.data haystack.data

/-- `str.lower()` (ASCII; the filenames and category names involved are
ASCII). -/
def pyLower (s : String) : String := ⟨s.data.map Char.toLower⟩

/-- The `sensitive_patterns` list (lines 576–580) — note it contains
`"key"`, `"secret"` and `".env"`. -/
def sensitive_patterns : List String :=
  ["auth", "security", "password", "token", "key", "secret",
   "payment", "billing", "database", "migration", "config",
   ".env", "docker", "ci", "deploy", "infra"]

/-- `any(p in f.get("filename", "").lower() for p in sensitive_patterns)`. -/
def is_sensitive (filename : String) : Bool :=
  sensitive_patterns.any (fun p => strHasSub p (pyLower filename))

def sensitive_count (diff : List FileData) : Nat :=
  (diff.filter (fun f => is_sensitive f.filename)).length

def total_additions (diff : List FileData) : Nat := (diff.map (·.additions)).sum

def total_deletions (diff : List FileData) : Nat := (diff.map (·.deletions)).sum

def count_severity (fs : List Finding) (s : FindingSeverity) : Nat :=
  (fs.filter (fun f => f.severity == s)).length

def size_score (diff : List FileData) : ℚ :=
  min 30 (((total_additions diff + total_deletions diff : Nat) : ℚ) / 20)

def severity_score (fs : List Finding) : ℚ :=
  min 40 ((count_severity fs .critical : ℚ) * 15 +
          (count_severity fs .high : ℚ) * 8 +
          (count_severity fs .medium : ℚ) * 3)

/-- `blast_radius = min(15, files_changed * 1.5 + sensitive_files * 5)`. -/
def blast_radius (diff : List FileData) : ℚ :=
  min 15 ((diff.length : ℚ) * (3/2) + (sensitive_count diff : ℚ) * 5)

def complexity_score (diff : List FileData) : ℚ :=
  min 15 (if total_deletions diff > 0
          then ((total_additions diff : ℚ) / ((max (total_deletions diff) 1 : Nat) : ℚ)) * 3
          else 5)

/-- `heuristic_score = round(min(100, size + severity + blast + complexity))`. -/
def heuristic_score (diff : List FileData) (fs : List Finding) : ℤ :=
  pyRound (min 100 (size_score diff + severity_score fs +
    blast_radius diff + complexity_score diff))

/-- `max(-15, min(15, ai_data.get("ai_adjustment", 0)))`; `none` models any
failure of the AI call / JSON parse (adjustment defaults to 0). -/
def aiAdjustment : Option ℚ → ℚ
  | none => 0
  | some x => max (-15) (min 15 x)

structure RiskBreakdown where
  size_impact : ℤ
  severity_impact : ℤ
  blast_radius : ℤ
  complexity : ℤ
  ai_adjustment : ℚ
deriving DecidableEq, Repr

structure RiskAssessment where
  score : ℤ
  label : String
  explanation : String
  breakdown : RiskBreakdown
deriving DecidableEq, Repr

/-- `LLMService.compute_risk_score`.  `aiResult` is the outcome of the
best-effort AI refinement (`some (adjustment, explanation)` when the
provider call and JSON parse succeed, `none` on any failure). -/
def compute_risk_score (diff : List FileData) (findings : List Finding)
    (aiResult : Option (ℚ × String)) : RiskAssessment :=
  let adj := aiAdjustment (aiResult.map Prod.fst)
  let explanation := match aiResult with
    | none => ""
    | some (_, e) => e
  let final : ℤ :=
    pyRound (max 0 (min 100 ((heuristic_score diff findings : ℚ) + adj)))
  { score := final,
    label := if 80 ≤ final then "critical"
             else if 60 ≤ final then "high"
             else if 35 ≤ final then "medium"
             else "low",
    explanation := explanation,
    breakdown := { size_impact := pyRound (size_score diff),
                   severity_impact := pyRound (severity_score findings),
                   blast_radius := pyRound (blast_radius diff),
                   complexity := pyRound (complexity_score diff),
                   ai_adjustment := adj } }

/-! ## `LLMService._parse_llm_response` (`services/llm_service.py`, lines 735–811)

`json.loads` is the Python standard library, external to the repository; it
is abstracted as a `loads` oracle returning `none` on `JSONDecodeError`.
JSON numbers are modelled as integers (the fields involved are integral);
JSON objects model Python dicts (keys unique in a decoded dict). -/

inductive PyJson where
  | null
  | bool (b : Bool)
  | num (n : Int)
  | str (s : String)
  | arr (xs : List PyJson)
  | obj (fields : List (String × PyJson))

/-- `item.get(k)` on a decoded JSON object. -/
def objGet (fields : List (String × PyJson)) (k : String) : Option PyJson :=
  match fields.find? (fun p => p.1 == k) with
  | some p => some p.2
  | none => none

/-- Python truthiness of a decoded JSON value. -/
def pyTruthy : PyJson → Bool
  | .null => false
  | .bool b => b
  | .num n => n != 0
  | .str s => s != ""
  | .arr xs => !xs.isEmpty
  | .obj fs => !fs.isEmpty

/-- `str.strip()`. -/
def pyStrip (s : String) : String :=
  ⟨((s.data.dropWhile isPySpace).reverse.dropWhile isPySpace).reverse⟩

/-- Lines 744–746: if the stripped response starts with a markdown fence,
drop the first and last line (when there are more than two lines). -/
def stripFences (s : String) : String :=
  if startsWithStr "```" s then
    let lines := splitNl s
    if 2 < lines.length then joinNl ((lines.drop 1).dropLast)
    else s
  else s

/-- Lines 749–756: `find('[')` / `rfind(']') + 1` and the slice between
them; `none` when either bracket is absent (the function returns `[]`). -/
def extractArray (s : String) : Option String :=
  let cs := s.data
  match cs.findIdx? (fun c => c == '[') with
  | none => none
  | some i =>
    match cs.reverse.findIdx? (fun c => c == ']') with
    | none => none
    | some j => some ⟨(cs.drop i).take (cs.length - j - i)⟩

/-- The `severity_map` dict (lines 765–770). -/
def severity_map (s : String) : Option FindingSeverity :=
  if s = "critical" then some .critical
  else if s = "high" then some .high
  else if s = "medium" then some .medium
  else if s = "low" then some .low
  else none

/-- The `category_map` dict (lines 773–778). -/
def category_map (s : String) : Option FindingCategory :=
  if s = "bug" then some .bug
  else if s = "security" then some .security
  else if s = "performance" then some .performance
  else if s = "best_practice" then some .best_practice
  else none

/-- `s[:n]`. -/
def pyTake (n : Nat) (s : String) : String := ⟨s.data.take n⟩

/-- Outcome of processing one array item inside the `for idx, item in
enumerate(data)` loop: `skip` models the `continue` branches (non-dict item,
falsy title/description); `abort` models a `TypeError`/`AttributeError`
raised mid-loop on a field of unexpected JSON type, which the blanket
`except Exception` turns into returning the findings accumulated so far.
(The one divergence from CPython: a JSON-array `title` would slice without
error there; it is conservatively treated as `abort` here.) -/
inductive ItemResult where
  | skip
  | abort
  | finding (f : Finding)

def parseItem (filename : String) (j : PyJson) : ItemResult :=
  match j with
  | .obj fields =>
    let titleV := (objGet fields "title").getD .null
    let descV := (objGet fields "description").getD .null
    if !pyTruthy titleV || !pyTruthy descV then .skip
    else
      match titleV, descV with
      | .str title, .str desc =>
        let suggV := (objGet fields "suggestion").getD (.str "")
        let sevV := (objGet fields "severity").getD (.str "")
        let catV := (objGet fields "category").getD (.str "")
        let lineV := (objGet fields "line_number").getD (.num 0)
        match suggV, sevV, catV, lineV with
        | .str sugg, .str sev, .str cat, .num ln =>
          .finding
            { file_path := filename,
              line_number := ln,
              severity := (severity_map (pyLower sev)).getD .medium,
              category := (category_map (pyLower cat)).getD .bug,
              rule_id := "AI:reasoning",
              title := pyTake 200 title,
              description := pyTake 1000 desc,
              suggestion := pyTake 500 sugg,
              code_snippet := "",
              is_ai_generated := true }
        | _, _, _, _ => .abort
      | _, _ => .abort
  | _ => .skip

def parseItems (filename : String) : List PyJson → List Finding
  | [] => []
  | j :: rest =>
    match parseItem filename j with
    | .skip => parseItems filename rest
    | .abort => []
    | .finding f => f :: parseItems filename rest

/-- `LLMService._parse_llm_response(response, filename)`. -/
def parse_llm_response (loads : String → Option PyJson)
    (response filename : String) : List Finding :=
  let clean := stripFences (pyStrip response)
  match extractArray clean with
  | none => []
  | some jstr =>
    match loads jstr with
    | none => []
    | some (.arr items) => parseItems filename items
    | some _ => []

/-- `LLMService._analyze_cross_file_impact` parses the model's response
with the fixed pseudo-filename `"cross-file-analysis"` (line 147); the
prompt construction and provider call are external collaborators. -/
def analyze_cross_file_findings (loads : String → Option PyJson)
    (response : String) : List Finding :=
  parse_llm_response loads response "cross-file-analysis"

/-! ## `analyze_pr_task` (`tasks/analysis.py`, lines 34–253)

The Celery task is a sequential orchestration over external collaborators
(GitHub, database, LLM).  Each collaborator call is modelled by its outcome
in a `TaskEnv`; `Except.error` models a raised exception.  The rule engine
and `llm_service.analyze_diff` are total (the latter catches all per-file
and cross-file exceptions internally, lines 73–86), so the AI stage is
modelled by its resulting findings list. -/

structure TaskEnv where
  /-- `run.status = RUNNING; db.commit()` (line 49–50). -/
  initialCommit : Except String Unit
  /-- `_get_github_service` — raises when no credentials (line 28). -/
  githubService : Except String Unit
  /-- the initial `create_status_check(..., "pending", ...)` (line 63). -/
  statusCheckPending : Except String Unit
  /-- `github_service.get_pr_diff(...)` (line 72). -/
  getPrDiff : Except String (List FileData)
  /-- the per-line rule checks of `AnalyzerService` (pure, total). -/
  checks : String → Nat → String → List Finding
  /-- result of `llm_service.analyze_diff` (never raises). -/
  aiFindings : List Finding
  /-- `llm_service.generate_auto_fix` per finding (caught, line 145). -/
  autoFix : Finding → Except String String
  /-- `llm_service.compute_risk_score` outcome (caught, line 184). -/
  riskResult : Except String Int
  /-- `llm_service.generate_pr_summary` outcome (caught, line 198). -/
  summaryResult : Except String String
  /-- the `db.commit()` persisting findings and COMPLETED status (line 208). -/
  commitResults : Except String Unit
  /-- `post_pr_comment` for the summary comment (line 336, NOT wrapped). -/
  postSummaryComment : Except String Unit
  /-- `post_review_comment` for inline comments (caught, line 358). -/
  postInline : Except String Unit
  /-- the final `create_status_check` (line 228, NOT wrapped). -/
  statusCheckFinal : Except String Unit

/-- The observable final state of the run row. -/
structure RunRecord where
  status : RunStatus
  errorMessage : Option String
  riskScore : Option Int
  prSummary : Option String
deriving DecidableEq, Repr

/-- `analyze_pr_task` for an existing run: the outer `try/except` turns any
exception escaping the body into `FAILED` with the message captured; the
optional stages (auto-fix, embedding, risk score, PR summary, inline
comments) have their own `try/except` and never escape. -/
def analyze_pr_task (env : TaskEnv) : RunRecord :=
  match env.initialCommit with
  | .error e => ⟨.failed, some e, none, none⟩
  | .ok _ =>
  match env.githubService with
  | .error e => ⟨.failed, some e, none, none⟩
  | .ok _ =>
  match env.statusCheckPending with
  | .error e => ⟨.failed, some e, none, none⟩
  | .ok _ =>
  match env.getPrDiff with
  | .error e => ⟨.failed, some e, none, none⟩
  | .ok diff =>
  let rule_findings := analyze_diff_rules env.checks diff
  let all_findings := rule_findings ++ env.aiFindings
  match deduplicate_findings all_findings with
  | .error e => ⟨.failed, some e, none, none⟩
  | .ok deduped =>
  -- auto-fix generation per critical/high finding: exceptions caught
  let _autoFixes := deduped.map (fun f =>
    match env.autoFix f with
    | .error _ => none
    | .ok s => if s = "" then none else some s)
  -- risk score: exception caught, `run.risk_score = None` on failure
  let riskScore := match env.riskResult with
    | .error _ => none
    | .ok s => some s
  -- PR summary: exception caught, left unset on failure
  let prSummary := match env.summaryResult with
    | .error _ => none
    | .ok s => if s = "" then none else some s
  match env.commitResults with
  | .error e => ⟨.failed, some e, riskScore, prSummary⟩
  | .ok _ =>
  match env.postSummaryComment with
  | .error e => ⟨.failed, some e, riskScore, prSummary⟩
  | .ok _ =>
  -- inline review comments: each wrapped in try/except (line 349–359)
  let _ := match env.postInline with
    | .error _ => ()
    | .ok _ => ()
  match env.statusCheckFinal with
  | .error e => ⟨.failed, some e, riskScore, prSummary⟩
  | .ok _ => ⟨.completed, none, riskScore, prSummary⟩

/-- An `Except` outcome models a raised exception. -/
def isErr {α : Type} : Except String α → Prop
  | .error _ => True
  | .ok _ => False

instance {α : Type} (x : Except String α) : Decidable (isErr x) := by
  cases x <;> simp [isErr] <;> infer_instance

/-- The failing input for C1: a one-hunk patch whose first body line is an
added line. -/
def c1_patch : String := "@@ -1 +1 @@\n+x"

def c9_high : Finding :=
  { file_path := "app.py", line_number := 10, severity := .high,
    category := .security, rule_id := "sql_injection_risk",
    title := "Potential SQL injection vulnerability",
    description := "String concatenation in SQL queries can lead to SQL injection",
    suggestion := "Use parameterized queries or prepared statements",
    code_snippet := "", is_ai_generated := false }

def c9_info : Finding :=
  { c9_high with
    severity := .info,
    category := .documentation,
    rule_id := "docs",
    title := "Missing docstring",
    description := "Add a docstring" }

/-- A task environment in which every collaborator call succeeds. -/
def c2_env_ok : TaskEnv :=
  { initialCommit := .ok (), githubService := .ok (),
    statusCheckPending := .ok (), getPrDiff := .ok [],
    checks := fun _ _ _ => [], aiFindings := [],
    autoFix := fun _ => .ok "", riskResult := .ok 0, summaryResult := .ok "",
    commitResults := .ok (), postSummaryComment := .ok (), postInline := .ok (),
    statusCheckFinal := .ok () }

/-- Same environment, except the initial status-check notification raises. -/
def c2_env_statusFail : TaskEnv :=
  { c2_env_ok with statusCheckPending := .error "GitHub status API 500" }

/-- The mandatory dedup stage fails (its `KeyError` escapes to the outer
handler). -/
def dedup_fails (env : TaskEnv) : Prop :=
  match env.getPrDiff with
  | .error _ => False
  | .ok diff => isErr (deduplicate_findings
      (analyze_diff_rules env.checks diff ++ env.aiFindings))

instance (env : TaskEnv) : Decidable (dedup_fails env) := by
  unfold dedup_fails
  cases env.getPrDiff <;> infer_instance

def c3_medium : Finding :=
  { c9_high with
    severity := .medium,
    category := .bug,
    rule_id := "missing_error_handling",
    title := "Missing error handling for HTTP request",
    description := "HTTP request without proper error handling can cause crashes" }

def c3_merged : Finding :=
  { c9_high with
    description := "String concatenation in SQL queries can lead to SQL injection\n\nAdditional concerns: bug" }

def c5_diff : List FileData :=
  [{ filename := "monkey.py", patch := none, additions := 0, deletions := 0 }]

/-- The claim's keyword list, as the claim states it ("auth, security,
password, token, payment, billing, database, migration, config, env,
docker, ci, deploy, infra — and no other keyword"); kept separate from the
source's `sensitive_patterns` for the refinement comparison. -/
def spec_blast_keywords : List String :=
  ["auth", "security", "password", "token", "payment", "billing",
   "database", "migration", "config", "env", "docker", "ci", "deploy", "infra"]

/-- The blast-radius formula with the claim's keyword list. -/
def spec_blast_radius (diff : List FileData) : ℚ :=
  min 15 ((3:ℚ)/2 * diff.length +
    5 * ((diff.filter (fun f =>
      spec_blast_keywords.any (fun p => strHasSub p (pyLower f.filename)))).length : ℚ))

/-- The amended keyword list: the code's sixteen patterns, including
`"key"`, `"secret"` and `".env"`. -/
def amended_blast_keywords : List String :=
  ["auth", "security", "password", "token", "key", "secret",
   "payment", "billing", "database", "migration", "config",
   ".env", "docker", "ci", "deploy", "infra"]

/-- The invariant the claim states for AI findings: tagged
`is_ai_generated`, `rule_id = "AI:reasoning"`, severity restricted to the
four AI severities (never `info`), category restricted to the four AI
categories (never `documentation`). -/
def ai_finding_invariant (f : Finding) : Bool :=
  f.is_ai_generated && (f.rule_id == "AI:reasoning") &&
  decide (f.severity ∈ [FindingSeverity.critical, .high, .medium, .low]) &&
  decide (f.category ∈ [FindingCategory.bug, .security, .performance, .best_practice])

def c10_item (n : Int) : PyJson :=
  .obj [("line_number", .num n), ("severity", .str "high"), ("category", .str "bug"),
        ("title", .str "Breaking signature change"),
        ("description", .str "Callers not updated"),
        ("suggestion", .str "Update call sites")]

def c10_loads : String → Option PyJson :=
  fun _ => some (.arr [c10_item 0, c10_item 7])

def c10_finding (n : Int) : Finding :=
  { file_path := "cross-file-analysis", line_number := n, severity := .high,
    category := .bug, rule_id := "AI:reasoning",
    title := "Breaking signature change", description := "Callers not updated",
    suggestion := "Update call sites", code_snippet := "",
    is_ai_generated := true }

def c10_default_item : PyJson :=
  .obj [("title", .str "Missing test updates"),
        ("description", .str "No tests changed")]

def c10_default_finding : Finding :=
  { file_path := "cross-file-analysis", line_number := 0, severity := .medium,
    category := .bug, rule_id := "AI:reasoning", title := "Missing test updates",
    description := "No tests changed", suggestion := "", code_snippet := "",
    is_ai_generated := true }

/-! ## Lemmas and claim theorems -/

theorem pyRound_intCast (n : ℤ) : pyRound (n : ℚ) = n := by
  unfold pyRound
  simp

theorem pyRound_le_of_le {q : ℚ} {n : ℤ} (h : q ≤ (n : ℚ)) : pyRound q ≤ n := by
  unfold pyRound
  have hf : ⌊q⌋ ≤ n := by
    have := Int.floor_le_floor h
    simpa using this
  split
  · exact hf
  · split
    · rename_i h1 h2
      -- here 1/2 < q - ⌊q⌋, so q is not an integer, hence ⌊q⌋ < q ≤ n
      have hlt : (⌊q⌋ : ℚ) < q := by linarith [Int.floor_le q]
      have : ⌊q⌋ < n := by
        by_contra hcon
        push_neg at hcon
        have : (n : ℚ) ≤ (⌊q⌋ : ℚ) := by exact_mod_cast hcon
        linarith
      omega
    · rename_i h1 h2
      -- exact half: q = ⌊q⌋ + 1/2 < n, so ⌊q⌋ + 1 ≤ n
      have hr : q - (⌊q⌋ : ℚ) = 1/2 := le_antisymm (not_lt.mp h2) (not_lt.mp h1)
      have hlt : (⌊q⌋ : ℚ) + 1/2 ≤ (n : ℚ) := by linarith
      have : ⌊q⌋ < n := by
        by_contra hcon
        push_neg at hcon
        have : (n : ℚ) ≤ (⌊q⌋ : ℚ) := by exact_mod_cast hcon
        linarith
      split <;> omega

theorem pyRound_ge_of_ge {q : ℚ} {n : ℤ} (h : (n : ℚ) ≤ q) : n ≤ pyRound q := by
  unfold pyRound
  have hf : n ≤ ⌊q⌋ := Int.le_floor.mpr h
  split
  · exact hf
  · split
    · omega
    · split <;> omega

theorem pyRound_nonneg {q : ℚ} (h : 0 ≤ q) : 0 ≤ pyRound q := by
  have := @pyRound_ge_of_ge q 0 (by exact_mod_cast h)
  omega

/-- `round (clamp 0 100 q) = clamp 0 100 (round q)` — used to relate the
code's `round(max(0, min(100, x)))` to the spec's `clamp(0,100,round(x))`. -/
theorem pyRound_clamp_comm (q : ℚ) :
    pyRound (max 0 (min 100 q)) = max 0 (min 100 (pyRound q)) := by
  rcases le_total q 0 with hq | hq
  · have h1 : min 100 q = q := min_eq_right (by linarith)
    have h2 : max (0 : ℚ) q = 0 := max_eq_left hq
    rw [h1, h2]
    have hr : pyRound q ≤ 0 := @pyRound_le_of_le q 0 (by exact_mod_cast hq)
    have : min 100 (pyRound q) = pyRound q := min_eq_right (by omega)
    rw [this]
    have : max 0 (pyRound q) = 0 := max_eq_left hr
    rw [this]
    simpa using pyRound_intCast 0
  · rcases le_total 100 q with hq2 | hq2
    · have h1 : min (100 : ℚ) q = 100 := min_eq_left hq2
      rw [h1]
      have h2 : max (0 : ℚ) 100 = 100 := by norm_num
      rw [h2]
      have hr : (100 : ℤ) ≤ pyRound q := pyRound_ge_of_ge (by exact_mod_cast hq2)
      have : min 100 (pyRound q) = 100 := min_eq_left hr
      rw [this]
      have : max (0 : ℤ) 100 = 100 := by norm_num
      rw [this]
      simpa using pyRound_intCast 100
    · have h1 : min (100 : ℚ) q = q := min_eq_right hq2
      rw [h1]
      have h2 : max (0 : ℚ) q = q := max_eq_right hq
      rw [h2]
      have hlo : 0 ≤ pyRound q := pyRound_nonneg hq
      have hhi : pyRound q ≤ 100 := pyRound_le_of_le (by exact_mod_cast hq2)
      have : min 100 (pyRound q) = pyRound q := min_eq_right hhi
      rw [this]
      exact (max_eq_right hlo).symm

theorem allLtB_mono {n m : Nat} {xs : List Nat} (h : allLtB n xs = true)
    (hnm : n ≤ m) : allLtB m xs = true := by
  simp only [allLtB, List.all_eq_true, decide_eq_true_eq] at h ⊢
  intro x hx
  exact lt_of_lt_of_le (h x hx) hnm

theorem allLtB_snoc {n : Nat} {xs : List Nat} (h : allLtB n xs = true) :
    allLtB (n + 1) (xs ++ [n]) = true := by
  simp only [allLtB, List.all_eq_true, decide_eq_true_eq] at h ⊢
  intro x hx
  rcases List.mem_append.mp hx with hx | hx
  · exact lt_trans (h x hx) (Nat.lt_succ_self n)
  · simp only [List.mem_singleton] at hx
    omega

theorem strictIncB_snoc {xs : List Nat} {n : Nat} (h1 : strictIncB xs = true)
    (h2 : allLtB n xs = true) : strictIncB (xs ++ [n]) = true := by
  induction xs with
  | nil => simp [strictIncB]
  | cons a t ih =>
    cases t with
    | nil =>
      simp only [allLtB, List.all_eq_true, decide_eq_true_eq] at h2
      simp only [List.nil_append, List.singleton_append, strictIncB,
        Bool.and_eq_true, decide_eq_true_eq]
      exact ⟨h2 a (by simp), trivial⟩
    | cons b t2 =>
      simp only [strictIncB, Bool.and_eq_true, decide_eq_true_eq] at h1
      have h2' : allLtB n (b :: t2) = true := by
        simp only [allLtB, List.all_eq_true, decide_eq_true_eq] at h2 ⊢
        intro x hx
        exact h2 x (by simp [hx])
      have := ih h1.2 h2'
      simp only [List.cons_append, strictIncB, Bool.and_eq_true,
        decide_eq_true_eq] at this ⊢
      exact ⟨h1.1, this⟩

theorem stateOk_init : stateOk initPState = true := by
  simp [stateOk, initPState]

theorem stateOk_step {s : PState} (hs : stateOk s = true) (line : String) :
    stateOk (stepLine s line) = true := by
  simp only [stateOk, Bool.and_eq_true] at hs
  unfold stepLine
  split
  · -- hunk header: flush the pending hunk, open a fresh one
    rename_i os oc ns nc _
    simp only [stateOk, Bool.and_eq_true, List.all_append]
    refine ⟨⟨hs.1, ?_⟩, ?_⟩
    · cases hcur : s.current with
      | none => simp
      | some h =>
        rw [hcur] at hs
        simp only [List.all_cons, List.all_nil, Bool.and_true]
        exact (Bool.and_eq_true _ _ |>.mp hs.2).1
    · simp [hunkOk, strictIncB, allLtB]
  · -- not a header
    cases hcur : s.current with
    | none =>
      rw [hcur] at hs
      simp [stateOk, hcur, hs.1]
    | some h =>
      rw [hcur] at hs
      obtain ⟨hhunks, hcurOk⟩ := hs
      obtain ⟨hOk, hLt⟩ := Bool.and_eq_true _ _ |>.mp hcurOk
      simp only [hcur]
      split
      · -- added line
        simp only [stateOk, Bool.and_eq_true]
        refine ⟨hhunks, ?_⟩
        simp only [hunkOk, List.map_append, List.map_cons, List.map_nil]
        have h1 := @strictIncB_snoc (h.added.map Prod.fst) s.new_line_no hOk hLt
        have h2 := @allLtB_snoc s.new_line_no (h.added.map Prod.fst) hLt
        exact ⟨h1, h2⟩
      · split
        · -- removed line: added list and new_line_no unchanged
          simp only [stateOk, Bool.and_eq_true]
          exact ⟨hhunks, by simp only [hunkOk, Bool.and_eq_true]; exact ⟨hOk, hLt⟩⟩
        · split
          · -- context line: new_line_no increments
            simp only [stateOk, Bool.and_eq_true]
            exact ⟨hhunks, by
              simp only [hunkOk, Bool.and_eq_true]
              exact ⟨hOk, allLtB_mono hLt (Nat.le_succ _)⟩⟩
          · -- ignored line
            simp only [stateOk, Bool.and_eq_true, hcur]
            exact ⟨hhunks, by
              simp only [hunkOk, Bool.and_eq_true]
              exact ⟨hOk, hLt⟩⟩

theorem stateOk_foldl {lines : List String} {s : PState}
    (hs : stateOk s = true) : stateOk (lines.foldl stepLine s) = true := by
  induction lines generalizing s with
  | nil => exact hs
  | cons l rest ih => exact ih (stateOk_step hs l)

theorem finishState_ok {s : PState} (hs : stateOk s = true)
    (filename : String) : (finishState s filename).hunks.all hunkOk = true := by
  simp only [stateOk, Bool.and_eq_true] at hs
  simp only [finishState, List.all_append]
  refine Bool.and_eq_true _ _ |>.mpr ⟨hs.1, ?_⟩
  cases hcur : s.current with
  | none => simp
  | some h =>
    rw [hcur] at hs
    simp only [List.all_cons, List.all_nil, Bool.and_true]
    exact (Bool.and_eq_true _ _ |>.mp hs.2).1

theorem lookupGroup_addToGroups (gs : List ((String × Int) × List Finding))
    (f : Finding) (k : String × Int) :
    lookupGroup (addToGroups gs f) k
      = lookupGroup gs k ++ (if groupKey f = k then [f] else []) := by
  induction gs with
  | nil =>
    by_cases hk : groupKey f = k <;> simp [addToGroups, lookupGroup, hk]
  | cons p rest ih =>
    obtain ⟨k0, g0⟩ := p
    by_cases h0 : k0 = groupKey f
    · by_cases hk : k0 = k
      · have hfk : groupKey f = k := h0 ▸ hk
        simp [addToGroups, lookupGroup, h0, hk, hfk]
      · have hfk : ¬ groupKey f = k := fun hc => hk (h0.symm ▸ hc)
        simp [addToGroups, lookupGroup, h0, hk, hfk]
    · by_cases hk : k0 = k
      · have hfk : ¬ groupKey f = k := fun hc => h0 (hk.trans hc.symm)
        have hkf : ¬ k = groupKey f := fun hc => hfk hc.symm
        simp [addToGroups, lookupGroup, h0, hk, hfk, hkf]
      · simp [addToGroups, lookupGroup, h0, hk, ih]

theorem lookupGroup_foldl (fs : List Finding) :
    ∀ (gs : List ((String × Int) × List Finding)) (k : String × Int),
      lookupGroup (fs.foldl addToGroups gs) k
        = lookupGroup gs k ++ fs.filter (fun f => decide (groupKey f = k)) := by
  induction fs with
  | nil => intro gs k; simp
  | cons f rest ih =>
    intro gs k
    simp only [List.foldl_cons, List.filter_cons]
    rw [ih, lookupGroup_addToGroups]
    by_cases h : groupKey f = k <;> simp [h]

/-- The group stored under key `k` is exactly the sublist of the input with
that key, in order. -/
theorem groupByKey_lookup (fs : List Finding) (k : String × Int) :
    lookupGroup (groupByKey fs) k
      = fs.filter (fun f => decide (groupKey f = k)) := by
  simpa [groupByKey, lookupGroup] using lookupGroup_foldl fs [] k

theorem keys_addToGroups (gs : List ((String × Int) × List Finding)) (f : Finding) :
    (addToGroups gs f).map Prod.fst
      = if groupKey f ∈ gs.map Prod.fst then gs.map Prod.fst
        else gs.map Prod.fst ++ [groupKey f] := by
  induction gs with
  | nil => simp [addToGroups]
  | cons p rest ih =>
    obtain ⟨k0, g0⟩ := p
    by_cases h0 : k0 = groupKey f
    · simp [addToGroups, h0]
    · have : ¬ groupKey f = k0 := fun hc => h0 hc.symm
      by_cases hmem : groupKey f ∈ rest.map Prod.fst <;>
        simp [addToGroups, h0, ih, hmem, this]

theorem addToGroups_members {gs : List ((String × Int) × List Finding)} {f : Finding}
    (hmem : ∀ p ∈ gs, p.2 ≠ [] ∧ ∀ x ∈ p.2, groupKey x = p.1) :
    ∀ p ∈ addToGroups gs f, p.2 ≠ [] ∧ ∀ x ∈ p.2, groupKey x = p.1 := by
  induction gs with
  | nil =>
    intro p hp
    simp only [addToGroups, List.mem_singleton] at hp
    subst hp
    exact ⟨by simp, by simp⟩
  | cons q rest ih =>
    obtain ⟨k0, g0⟩ := q
    intro p hp
    by_cases h0 : k0 = groupKey f
    · subst h0
      simp only [addToGroups, if_pos rfl] at hp
      rcases List.mem_cons.mp hp with hp | hp
      · subst hp
        refine ⟨by simp, ?_⟩
        intro x hx
        rcases List.mem_append.mp hx with hx | hx
        · exact (hmem (groupKey f, g0) (by simp)).2 x hx
        · simp only [List.mem_singleton] at hx
          subst hx
          rfl
      · exact hmem p (List.mem_cons_of_mem _ hp)
    · simp only [addToGroups, if_neg h0] at hp
      rcases List.mem_cons.mp hp with hp | hp
      · subst hp
        exact hmem (k0, g0) (by simp)
      · exact ih (fun r hr => hmem r (List.mem_cons_of_mem _ hr)) p hp

theorem addToGroups_good {gs : List ((String × Int) × List Finding)} {f : Finding}
    (h : GoodGroups gs) : GoodGroups (addToGroups gs f) := by
  obtain ⟨hnodup, hmem⟩ := h
  constructor
  · rw [keys_addToGroups]
    by_cases hk : groupKey f ∈ gs.map Prod.fst
    · simpa [hk] using hnodup
    · simp only [hk, if_false]
      exact List.Nodup.append hnodup (List.nodup_singleton _)
        (by simpa [List.disjoint_singleton] using hk)
  · exact addToGroups_members hmem

theorem groupByKey_good (fs : List Finding) : GoodGroups (groupByKey fs) := by
  have : ∀ (gs : List ((String × Int) × List Finding)), GoodGroups gs →
      GoodGroups (fs.foldl addToGroups gs) := by
    induction fs with
    | nil => intro gs h; exact h
    | cons f rest ih => intro gs h; exact ih _ (addToGroups_good h)
  exact this [] ⟨List.nodup_nil, by simp⟩

theorem lookupGroup_of_mem {gs : List ((String × Int) × List Finding)}
    (hnodup : (gs.map Prod.fst).Nodup) {p : (String × Int) × List Finding}
    (hp : p ∈ gs) : lookupGroup gs p.1 = p.2 := by
  induction gs with
  | nil => cases hp
  | cons q rest ih =>
    obtain ⟨k0, g0⟩ := q
    rcases List.mem_cons.mp hp with hp | hp
    · subst hp
      simp [lookupGroup]
    · have hk : k0 ≠ p.1 := by
        intro hc
        have : p.1 ∈ rest.map Prod.fst := List.mem_map_of_mem Prod.fst hp
        rw [List.map_cons] at hnodup
        exact (List.nodup_cons.mp hnodup).1 (hc ▸ this)
      simp only [lookupGroup, if_neg hk]
      exact ih (List.Nodup.of_cons (by simpa using hnodup)) hp

/-! ## Lemmas about the severity sort and the merge -/

theorem severity_order_eq_none {s : FindingSeverity} :
    severity_order s = none ↔ s = .info := by
  cases s <;> simp [severity_order]

theorem severity_order_eq_some {s : FindingSeverity} {k : Nat}
    (h : severity_order s = some k) : k = sevRank s := by
  cases s <;> simp [severity_order, sevRank] at h ⊢ <;> omega

theorem severityKeys_ok {g : List Finding} {pairs : List (Nat × Finding)}
    (h : severityKeys g = .ok pairs) :
    pairs.map Prod.snd = g ∧ ∀ p ∈ pairs, p.1 = sevRank p.2.severity := by
  induction g generalizing pairs with
  | nil =>
    simp only [severityKeys] at h
    cases h
    simp
  | cons f fs ih =>
    simp only [severityKeys] at h
    cases hso : severity_order f.severity with
    | none => rw [hso] at h; cases h
    | some k =>
      rw [hso] at h
      cases hrest : severityKeys fs with
      | error e => rw [hrest] at h; cases h
      | ok rest =>
        rw [hrest] at h
        cases h
        obtain ⟨ih1, ih2⟩ := ih hrest
        refine ⟨by simp [ih1], ?_⟩
        intro p hp
        rcases List.mem_cons.mp hp with hp | hp
        · subst hp
          exact severity_order_eq_some hso
        · exact ih2 p hp

theorem severityKeys_ok_of_noInfo {g : List Finding}
    (h : ∀ f ∈ g, f.severity ≠ .info) :
    ∃ pairs, severityKeys g = .ok pairs := by
  induction g with
  | nil => exact ⟨[], rfl⟩
  | cons f fs ih =>
    obtain ⟨rest, hrest⟩ := ih (fun x hx => h x (List.mem_cons_of_mem _ hx))
    cases hso : severity_order f.severity with
    | none =>
      exact absurd (severity_order_eq_none.mp hso) (h f (by simp))
    | some k =>
      exact ⟨(k, f) :: rest, by simp [severityKeys, hso, hrest]⟩

theorem insByKey_head (p : Nat × Finding) (l : List (Nat × Finding)) :
    (insByKey p l).head? = some (match l.head? with
      | none => p
      | some q => if q.1 < p.1 then q else p) := by
  cases l with
  | nil => simp [insByKey]
  | cons q qs =>
    by_cases h : q.1 < p.1 <;> simp [insByKey, h]

theorem sortPairs_head (ps : List (Nat × Finding)) :
    (sortPairs ps).head? = firstMinPair ps := by
  induction ps with
  | nil => simp [sortPairs, firstMinPair]
  | cons p rest ih =>
    simp only [sortPairs, firstMinPair, insByKey_head, ih]
    cases firstMinPair rest with
    | none => simp
    | some m => by_cases h : m.1 < p.1 <;> simp [h]

theorem firstMinPair_eq_none {ps : List (Nat × Finding)} :
    firstMinPair ps = none ↔ ps = [] := by
  cases ps with
  | nil => simp [firstMinPair]
  | cons p rest =>
    simp only [firstMinPair]
    constructor
    · intro h
      split at h
      · cases h
      · split at h <;> cases h
    · intro h
      cases h

theorem firstMinPair_mem {ps : List (Nat × Finding)} {m : Nat × Finding}
    (h : firstMinPair ps = some m) : m ∈ ps := by
  induction ps generalizing m with
  | nil => cases h
  | cons p rest ih =>
    simp only [firstMinPair] at h
    cases hr : firstMinPair rest with
    | none =>
      simp only [hr] at h
      cases h
      simp
    | some m0 =>
      simp only [hr] at h
      by_cases hlt : m0.1 < p.1
      · rw [if_pos hlt] at h
        cases h
        exact List.mem_cons_of_mem _ (ih hr)
      · rw [if_neg hlt] at h
        cases h
        simp

theorem firstMinPair_min {ps : List (Nat × Finding)} {m : Nat × Finding}
    (h : firstMinPair ps = some m) : ∀ q ∈ ps, m.1 ≤ q.1 := by
  induction ps generalizing m with
  | nil => cases h
  | cons p rest ih =>
    intro q hq
    simp only [firstMinPair] at h
    cases hr : firstMinPair rest with
    | none =>
      simp only [hr] at h
      cases h
      have : rest = [] := firstMinPair_eq_none.mp hr
      subst this
      simp only [List.mem_singleton] at hq
      subst hq
      exact le_refl _
    | some m0 =>
      simp only [hr] at h
      rcases List.mem_cons.mp hq with hq | hq
      · subst hq
        by_cases hlt : m0.1 < q.1
        · rw [if_pos hlt] at h; cases h; omega
        · rw [if_neg hlt] at h; cases h; exact le_refl _
      · have hm0 := ih hr q hq
        by_cases hlt : m0.1 < p.1
        · rw [if_pos hlt] at h; cases h; exact hm0
        · rw [if_neg hlt] at h; cases h; omega

theorem firstMinPair_eq_firstBySeverity {g : List Finding}
    {pairs : List (Nat × Finding)} (h : severityKeys g = .ok pairs) :
    (firstMinPair pairs).map Prod.snd = firstBySeverity g := by
  induction g generalizing pairs with
  | nil =>
    simp only [severityKeys] at h
    cases h
    simp [firstMinPair, firstBySeverity]
  | cons f fs ih =>
    simp only [severityKeys] at h
    cases hso : severity_order f.severity with
    | none => rw [hso] at h; cases h
    | some k =>
      rw [hso] at h
      cases hrest : severityKeys fs with
      | error e => rw [hrest] at h; cases h
      | ok rest =>
        rw [hrest] at h
        cases h
        have hk := severity_order_eq_some hso
        simp only [firstMinPair, firstBySeverity]
        cases hfm : firstMinPair rest with
        | none =>
          have : firstBySeverity fs = none := by
            rw [← ih hrest, hfm]; rfl
          rw [this]
          simp
        | some m =>
          have hsnd : firstBySeverity fs = some m.2 := by
            rw [← ih hrest, hfm]; rfl
          rw [hsnd]
          have hm1 : m.1 = sevRank m.2.severity :=
            (severityKeys_ok hrest).2 m (firstMinPair_mem hfm)
          by_cases hlt : m.1 < k
          · have hlt' : sevRank m.2.severity < sevRank f.severity := by
              rw [← hm1, ← hk]; exact hlt
            simp [hlt, hlt']
          · have hlt' : ¬ sevRank m.2.severity < sevRank f.severity := by
              rw [← hm1, ← hk]; exact hlt
            simp [hlt, hlt']

theorem firstBySeverity_eq_none {g : List Finding} :
    firstBySeverity g = none ↔ g = [] := by
  cases g with
  | nil => simp [firstBySeverity]
  | cons f fs =>
    simp only [firstBySeverity]
    constructor
    · intro h
      split at h
      · cases h
      · split at h <;> cases h
    · intro h
      cases h

theorem firstBySeverity_mem {g : List Finding} {m : Finding}
    (h : firstBySeverity g = some m) : m ∈ g := by
  induction g generalizing m with
  | nil => cases h
  | cons f fs ih =>
    simp only [firstBySeverity] at h
    cases hr : firstBySeverity fs with
    | none =>
      simp only [hr] at h
      cases h
      simp
    | some m0 =>
      simp only [hr] at h
      by_cases hlt : sevRank m0.severity < sevRank f.severity
      · rw [if_pos hlt] at h
        cases h
        exact List.mem_cons_of_mem _ (ih hr)
      · rw [if_neg hlt] at h
        cases h
        simp

theorem firstBySeverity_min {g : List Finding} {m : Finding}
    (h : firstBySeverity g = some m) :
    ∀ f ∈ g, sevRank m.severity ≤ sevRank f.severity := by
  induction g generalizing m with
  | nil => cases h
  | cons f0 fs ih =>
    intro f hf
    simp only [firstBySeverity] at h
    cases hr : firstBySeverity fs with
    | none =>
      simp only [hr] at h
      cases h
      have : fs = [] := firstBySeverity_eq_none.mp hr
      subst this
      simp only [List.mem_singleton] at hf
      subst hf
      exact le_refl _
    | some m0 =>
      simp only [hr] at h
      rcases List.mem_cons.mp hf with hf | hf
      · subst hf
        by_cases hlt : sevRank m0.severity < sevRank f.severity
        · rw [if_pos hlt] at h; cases h; omega
        · rw [if_neg hlt] at h; cases h; exact le_refl _
      · have := ih hr f hf
        by_cases hlt : sevRank m0.severity < sevRank f0.severity
        · rw [if_pos hlt] at h; cases h; exact this
        · rw [if_neg hlt] at h; cases h; omega

/-! ## Lemmas about `mergeGroup` and `dedupGroups` -/

theorem mergeGroup_ok {g : List Finding} {m : Finding} (h : mergeGroup g = .ok m) :
    ∃ b, firstBySeverity g = some b ∧
      m.file_path = b.file_path ∧ m.line_number = b.line_number ∧
      m.severity = b.severity ∧ m.category = b.category ∧
      (if 1 < (distinctCats g).length
       then m.description = b.description ++ "\n\nAdditional concerns: " ++
         joinComma (((distinctCats g).filter (fun c => c ≠ b.category)).map categoryValue)
       else m.description = b.description) := by
  unfold mergeGroup at h
  cases hsk : severityKeys g with
  | error e => rw [hsk] at h; cases h
  | ok pairs =>
    simp only [hsk] at h
    cases hsp : sortPairs pairs with
    | nil => simp only [hsp] at h; cases h
    | cons p tl =>
      obtain ⟨k0, m0⟩ := p
      simp only [hsp] at h
      have hfm : firstMinPair pairs = some (k0, m0) := by
        rw [← sortPairs_head, hsp]; rfl
      have hb : firstBySeverity g = some m0 := by
        rw [← firstMinPair_eq_firstBySeverity hsk, hfm]; rfl
      refine ⟨m0, hb, ?_⟩
      by_cases hc : 1 < (distinctCats g).length
      · rw [if_pos hc] at h
        cases h
        simp [hc]
      · rw [if_neg hc] at h
        cases h
        simp [hc]

theorem mergeGroup_isOk {g : List Finding} (hne : g ≠ [])
    (hinfo : ∀ f ∈ g, f.severity ≠ .info) : ∃ m, mergeGroup g = .ok m := by
  obtain ⟨pairs, hpairs⟩ := severityKeys_ok_of_noInfo hinfo
  have hmap := (severityKeys_ok hpairs).1
  have hpne : pairs ≠ [] := by
    intro hc
    subst hc
    exact hne hmap.symm
  have hspne : ∃ p tl, sortPairs pairs = p :: tl := by
    cases hsp : sortPairs pairs with
    | nil =>
      have hh := sortPairs_head pairs
      rw [hsp] at hh
      exact absurd (firstMinPair_eq_none.mp hh.symm) hpne
    | cons p tl => exact ⟨p, tl, rfl⟩
  obtain ⟨⟨k0, m0⟩, tl, hsp⟩ := hspne
  simp only [mergeGroup, hpairs, hsp]
  split <;> exact ⟨_, rfl⟩

theorem groupResult_key {g : List Finding} {m : Finding} {k : String × Int}
    (hr : g = [m] ∨ mergeGroup g = .ok m)
    (hmem : ∀ f ∈ g, groupKey f = k) : groupKey m = k := by
  rcases hr with hr | hr
  · exact hmem m (by rw [hr]; simp)
  · obtain ⟨b, hb, hfp, hln, -⟩ := mergeGroup_ok hr
    have hbk : groupKey b = k := hmem b (firstBySeverity_mem hb)
    show (m.file_path, m.line_number) = k
    rw [hfp, hln]
    exact hbk

theorem dedupGroups_cons {k : String × Int} {g : List Finding}
    {rest : List ((String × Int) × List Finding)} {out : List Finding}
    (h : dedupGroups ((k, g) :: rest) = .ok out) :
    ∃ m out', out = m :: out' ∧ (g = [m] ∨ mergeGroup g = .ok m) ∧
      dedupGroups rest = .ok out' := by
  rcases g with - | ⟨f, g'⟩
  · simp [dedupGroups, mergeGroup, severityKeys, sortPairs] at h
  · rcases g' with - | ⟨f2, g''⟩
    · simp only [dedupGroups] at h
      cases hdr : dedupGroups rest with
      | error e0 => rw [hdr] at h; cases h
      | ok out' =>
        simp only [hdr] at h
        cases h
        exact ⟨f, out', rfl, Or.inl rfl, rfl⟩
    · simp only [dedupGroups] at h
      cases hm : mergeGroup (f :: f2 :: g'') with
      | error e0 => rw [hm] at h; cases h
      | ok m0 =>
        simp only [hm] at h
        cases hdr : dedupGroups rest with
        | error e0 => rw [hdr] at h; cases h
        | ok out' =>
          simp only [hdr] at h
          cases h
          exact ⟨m0, out', rfl, Or.inr rfl, rfl⟩

theorem dedupGroups_keys {gs : List ((String × Int) × List Finding)}
    {out : List Finding} (h : dedupGroups gs = .ok out)
    (hmem : ∀ p ∈ gs, ∀ f ∈ p.2, groupKey f = p.1) :
    out.map groupKey = gs.map Prod.fst := by
  induction gs generalizing out with
  | nil =>
    simp only [dedupGroups] at h
    cases h
    simp
  | cons e rest ih =>
    obtain ⟨k, g⟩ := e
    obtain ⟨m, out', rfl, hr, hdr⟩ := dedupGroups_cons h
    have hk : groupKey m = k := groupResult_key hr (hmem (k, g) (by simp))
    simp only [List.map_cons, hk]
    rw [ih hdr (fun p hp => hmem p (List.mem_cons_of_mem _ hp))]

theorem nodup_map_filter_len_le_one {l : List Finding} (hn : (l.map groupKey).Nodup)
    (k : String × Int) :
    (l.filter (fun x => decide (groupKey x = k))).length ≤ 1 := by
  induction l with
  | nil => simp
  | cons a t ih =>
    simp only [List.map_cons, List.nodup_cons] at hn
    by_cases hk : groupKey a = k
    · have : ∀ x ∈ t, ¬ (groupKey x = k) := by
        intro x hx hc
        exact hn.1 (by rw [hk, ← hc]; exact List.mem_map_of_mem groupKey hx)
      have hft : t.filter (fun x => decide (groupKey x = k)) = [] := by
        rw [List.filter_eq_nil_iff]
        intro x hx
        simpa using this x hx
      simp [List.filter_cons, hk, hft]
    · simp only [List.filter_cons, decide_eq_true_eq, hk, if_false]
      exact ih hn.2

theorem dedupGroups_filter {gs : List ((String × Int) × List Finding)}
    {out : List Finding} (h : dedupGroups gs = .ok out)
    (hnodup : (gs.map Prod.fst).Nodup)
    (hmem : ∀ p ∈ gs, ∀ f ∈ p.2, groupKey f = p.1) :
    ∀ k g, (k, g) ∈ gs →
      ∃ m, out.filter (fun x => decide (groupKey x = k)) = [m] ∧
        (g = [m] ∨ mergeGroup g = .ok m) := by
  induction gs generalizing out with
  | nil =>
    intro k g hkg
    cases hkg
  | cons e rest ih =>
    obtain ⟨k0, g0⟩ := e
    obtain ⟨m, out', rfl, hr, hdr⟩ := dedupGroups_cons h
    intro k g hkg
    have hkm : groupKey m = k0 := groupResult_key hr (hmem (k0, g0) (by simp))
    simp only [List.map_cons, List.nodup_cons] at hnodup
    have hmem' : ∀ p ∈ rest, ∀ f ∈ p.2, groupKey f = p.1 :=
      fun p hp => hmem p (List.mem_cons_of_mem _ hp)
    have hkeys' : out'.map groupKey = rest.map Prod.fst :=
      dedupGroups_keys hdr hmem'
    rcases List.mem_cons.mp hkg with hkg | hkg
    · have hek : k0 = k := (Prod.mk.injEq _ _ _ _ ▸ hkg.symm).1
      have hge : g0 = g := (Prod.mk.injEq _ _ _ _ ▸ hkg.symm).2
      have hfm : out'.filter (fun x => decide (groupKey x = k)) = [] := by
        rw [List.filter_eq_nil_iff]
        intro x hx
        have hxk : groupKey x ∈ rest.map Prod.fst := by
          rw [← hkeys']
          exact List.mem_map_of_mem groupKey hx
        simp only [decide_eq_true_eq]
        intro hc
        exact hnodup.1 (by rw [hek, ← hc]; exact hxk)
      refine ⟨m, ?_, by rw [← hge]; exact hr⟩
      have : groupKey m = k := hek ▸ hkm
      simp [List.filter_cons, this, hfm]
    · have hkrest : k ∈ rest.map Prod.fst := by
        have := List.mem_map_of_mem Prod.fst hkg
        simpa using this
      have hkne : ¬ (groupKey m = k) := by
        rw [hkm]
        intro hc
        exact hnodup.1 (hc ▸ hkrest)
      have hres := ih hdr hnodup.2 hmem' k g hkg
      obtain ⟨m1, hm1, hrel⟩ := hres
      refine ⟨m1, ?_, hrel⟩
      simp [List.filter_cons, hkne, hm1]

/-! ## Regrouping an already-deduplicated list (for idempotence) -/

theorem addToGroups_of_notMem {gs : List ((String × Int) × List Finding)}
    {f : Finding} (h : groupKey f ∉ gs.map Prod.fst) :
    addToGroups gs f = gs ++ [(groupKey f, [f])] := by
  induction gs with
  | nil => simp [addToGroups]
  | cons p rest ih =>
    obtain ⟨k0, g0⟩ := p
    simp only [List.map_cons, List.mem_cons] at h
    push_neg at h
    have hne : k0 ≠ groupKey f := fun hc => h.1 hc.symm
    simp [addToGroups, hne, ih h.2]

theorem foldl_addToGroups_singletons (fs : List Finding) :
    ∀ (gs : List ((String × Int) × List Finding)),
      (∀ f ∈ fs, groupKey f ∉ gs.map Prod.fst) → (fs.map groupKey).Nodup →
      fs.foldl addToGroups gs = gs ++ fs.map (fun f => (groupKey f, [f])) := by
  induction fs with
  | nil => intro gs _ _; simp
  | cons f rest ih =>
    intro gs hdisj hnodup
    simp only [List.map_cons, List.nodup_cons] at hnodup
    simp only [List.foldl_cons]
    rw [addToGroups_of_notMem (hdisj f (by simp))]
    rw [ih (gs ++ [(groupKey f, [f])]) ?hdisj' hnodup.2]
    · simp
    case hdisj' =>
      intro x hx
      simp only [List.map_append, List.mem_append, List.map_cons, List.map_nil,
        List.mem_singleton]
      push_neg
      constructor
      · exact hdisj x (List.mem_cons_of_mem _ hx)
      · intro hc
        exact hnodup.1 (hc ▸ List.mem_map_of_mem groupKey hx)

theorem groupByKey_of_nodup {fs : List Finding} (h : (fs.map groupKey).Nodup) :
    groupByKey fs = fs.map (fun f => (groupKey f, [f])) := by
  have := foldl_addToGroups_singletons fs [] (by simp) h
  simpa [groupByKey] using this

theorem dedupGroups_singletons (fs : List Finding) :
    dedupGroups (fs.map (fun f => (groupKey f, [f]))) = .ok fs := by
  induction fs with
  | nil => rfl
  | cons f rest ih => simp [List.map_cons, dedupGroups, ih]

/-! ## Substring and parse-item helper lemmas -/

theorem listLead_append (xs ys : List Char) : listLead xs (xs ++ ys) = true := by
  induction xs with
  | nil => simp [listLead]
  | cons a as ih => simp [listLead, ih]

theorem listHasSub_nil_needle (l : List Char) : listHasSub [] l = true := by
  cases l <;> simp [listHasSub, listLead]

theorem listHasSub_of_append (pre xs ys : List Char) :
    listHasSub xs (pre ++ (xs ++ ys)) = true := by
  induction pre with
  | nil =>
    simp only [List.nil_append]
    cases xs with
    | nil => exact listHasSub_nil_needle _
    | cons a as =>
      simp only [List.cons_append, listHasSub]
      have : listLead (a :: as) ((a :: as) ++ ys) = true := listLead_append _ _
      rw [show (a :: as) ++ ys = a :: (as ++ ys) from rfl] at this
      simp [this]
  | cons c pre ih =>
    simp only [List.cons_append, listHasSub]
    simp [ih]

theorem lookupGroup_mem {gs : List ((String × Int) × List Finding)}
    {k : String × Int} (h : lookupGroup gs k ≠ []) :
    (k, lookupGroup gs k) ∈ gs := by
  induction gs with
  | nil => simp [lookupGroup] at h
  | cons p rest ih =>
    obtain ⟨k0, g0⟩ := p
    by_cases hk : k0 = k
    · subst hk
      simp [lookupGroup]
    · simp only [lookupGroup, if_neg hk] at h ⊢
      exact List.mem_cons_of_mem _ (ih h)

theorem severity_getD_mem (s : String) :
    (severity_map s).getD .medium ∈
      [FindingSeverity.critical, .high, .medium, .low] := by
  unfold severity_map
  split
  · simp
  · split
    · simp
    · split
      · simp
      · split <;> simp

theorem category_getD_mem (s : String) :
    (category_map s).getD .bug ∈
      [FindingCategory.bug, .security, .performance, .best_practice] := by
  unfold category_map
  split
  · simp
  · split
    · simp
    · split
      · simp
      · split <;> simp

theorem parseItem_finding {filename : String} {j : PyJson} {f : Finding}
    (h : parseItem filename j = .finding f) :
    f.is_ai_generated = true ∧ f.rule_id = "AI:reasoning" ∧
    f.severity ∈ [FindingSeverity.critical, .high, .medium, .low] ∧
    f.category ∈ [FindingCategory.bug, .security, .performance, .best_practice] ∧
    f.file_path = filename := by
  cases j with
  | obj fields =>
    simp only [parseItem] at h
    split at h
    · cases h
    · split at h
      · split at h
        · cases h
          refine ⟨rfl, rfl, ?_, ?_, rfl⟩
          · exact severity_getD_mem _
          · exact category_getD_mem _
        · cases h
      · cases h
  | null => simp [parseItem] at h
  | bool b => simp [parseItem] at h
  | num n => simp [parseItem] at h
  | str s => simp [parseItem] at h
  | arr xs => simp [parseItem] at h

theorem parseItem_line_default {filename : String}
    {fields : List (String × PyJson)} {f : Finding}
    (hno : objGet fields "line_number" = none)
    (h : parseItem filename (.obj fields) = .finding f) : f.line_number = 0 := by
  simp only [parseItem, hno, Option.getD] at h
  split at h
  · cases h
  · split at h
    · split at h
      · cases h
        rename_i heq
        injection heq with h0
        simp [← h0]
      · cases h
    · cases h

theorem parseItems_mem {filename : String} {items : List PyJson} {f : Finding}
    (h : f ∈ parseItems filename items) :
    ∃ j ∈ items, parseItem filename j = .finding f := by
  induction items with
  | nil => cases h
  | cons j rest ih =>
    simp only [parseItems] at h
    cases hj : parseItem filename j with
    | skip =>
      rw [hj] at h
      obtain ⟨j0, hj0, hres⟩ := ih h
      exact ⟨j0, List.mem_cons_of_mem _ hj0, hres⟩
    | abort =>
      rw [hj] at h
      cases h
    | finding f0 =>
      rw [hj] at h
      rcases List.mem_cons.mp h with h | h
      · subst h
        exact ⟨j, by simp, hj⟩
      · obtain ⟨j0, hj0, hres⟩ := ih h
        exact ⟨j0, List.mem_cons_of_mem _ hj0, hres⟩

theorem parse_llm_response_mem {loads : String → Option PyJson}
    {response filename : String} {f : Finding}
    (h : f ∈ parse_llm_response loads response filename) :
    ∃ j, parseItem filename j = .finding f := by
  simp only [parse_llm_response] at h
  split at h
  · cases h
  · split at h
    · cases h
    · obtain ⟨j, -, hj⟩ := parseItems_mem h
      exact ⟨j, hj⟩
    · cases h

/-! ## Claim theorems -/

/-- C7: for every patch string, within each hunk produced by
`DiffParser.parse_patch` the line numbers recorded for added lines form a
strictly increasing sequence (each `+` line is recorded at the running
new-line counter which then increments, and context lines also advance
that counter). -/
theorem C7_added_lines_strictly_increasing (patch filename : String) :
    ((parse_patch patch filename).hunks.all
      (fun h => strictIncB (h.added.map Prod.fst))) = true := by
  unfold parse_patch
  split
  · rfl
  · exact finishState_ok (stateOk_foldl stateOk_init) filename

/-- C1: the claim states that the `(line_number, code)` pairs
`AnalyzerService._check_file` applies its checks to equal
`DiffParser.parse_patch`'s `added_lines` map.  This is false — the analyzer
increments its line counter *before* recording an added line (and never
advances it on context lines), while `DiffParser` records then increments.
On `"@@ -1 +1 @@\n+x"` the checks run on `(2, "x")` but `added_lines` is
`{1: "x"}`, so the rule engine reports wrong line numbers: a code bug
relative to the documented DiffParser-equivalent tracking. -/
theorem C1_line_tracking_diverges :
    check_file_pairs c1_patch = [(2, "x")] ∧
    (parse_patch c1_patch "app.py").added_lines = [(1, "x")] ∧
    check_file_pairs c1_patch ≠ (parse_patch c1_patch "app.py").added_lines := by
  refine ⟨by decide, by decide, by decide⟩

/-- C9: `deduplicate_findings` is partial in the severity: the
`severity_order` dict has no entry for `INFO`, so a group of two findings at
the same `(file_path, line_number)` one of which has severity `info` raises
`KeyError` during the severity sort instead of returning a merged list. -/
theorem C9_info_severity_keyerror :
    deduplicate_findings [c9_high, c9_info] = .error "KeyError" ∧
    severity_order .info = none ∧
    deduplicate_findings [c9_info] = .ok [c9_info] := by
  refine ⟨rfl, rfl, rfl⟩

/-- C2 counterexample: the claim says an exception from the notification
collaborator (posting a comment / setting a status check) is logged and
never causes the run to end `FAILED`.  But `create_status_check` (line 63)
and the summary `post_pr_comment` (line 336) are not individually wrapped:
in an environment where every mandatory stage (fetch, rule engine, dedup,
persist) succeeds and only the status-check call raises, the run ends
`FAILED` with that very message. -/
theorem C2_counterexample :
    analyze_pr_task c2_env_statusFail =
      ⟨.failed, some "GitHub status API 500", none, none⟩ ∧
    ¬ isErr c2_env_statusFail.initialCommit ∧
    ¬ isErr c2_env_statusFail.getPrDiff ∧
    ¬ isErr c2_env_statusFail.commitResults ∧
    deduplicate_findings (analyze_diff_rules c2_env_statusFail.checks []
      ++ c2_env_statusFail.aiFindings) = .ok [] := by
  refine ⟨rfl, ?_, ?_, ?_, rfl⟩ <;> simp [c2_env_statusFail, c2_env_ok, isErr]

/-- C2 amended: the run ends `FAILED` exactly when one of the *unguarded*
stages raises: the initial commit, GitHub-service construction, either
status check, the diff fetch, the dedup pass, the persisting commit, or the
summary PR comment.  The optional stages (auto-fix, risk score, PR summary,
inline review comments) are each wrapped in their own `try/except` and never
produce `FAILED`; but the two status checks and the summary comment — the
notification collaborator — do escalate, contrary to the claim. -/
theorem C2_failed_iff_unguarded_stage (env : TaskEnv) :
    (analyze_pr_task env).status = .failed ↔
      isErr env.initialCommit ∨ isErr env.githubService ∨
      isErr env.statusCheckPending ∨ isErr env.getPrDiff ∨ dedup_fails env ∨
      isErr env.commitResults ∨ isErr env.postSummaryComment ∨
      isErr env.statusCheckFinal := by
  unfold analyze_pr_task dedup_fails
  cases env.initialCommit with
  | error e => simp [isErr]
  | ok u =>
  cases env.githubService with
  | error e => simp [isErr]
  | ok u =>
  cases env.statusCheckPending with
  | error e => simp [isErr]
  | ok u =>
  cases env.getPrDiff with
  | error e => simp [isErr]
  | ok diff =>
  cases hdd : deduplicate_findings (analyze_diff_rules env.checks diff ++ env.aiFindings) with
  | error e => simp [isErr, hdd]
  | ok deduped =>
  cases env.commitResults with
  | error e => simp [isErr, hdd]
  | ok u =>
  cases env.postSummaryComment with
  | error e => simp [isErr, hdd]
  | ok u =>
  cases env.statusCheckFinal with
  | error e => simp [isErr, hdd]
  | ok u => simp [isErr, hdd]

theorem strHasSub_concerns (d j : String) :
    strHasSub "Additional concerns" (d ++ "\n\nAdditional concerns: " ++ j) = true := by
  unfold strHasSub
  rw [String.data_append, String.data_append]
  have hsplit : ("\n\nAdditional concerns: " : String).data
      = ['\n', '\n'] ++ (("Additional concerns" : String).data ++ [':', ' ']) := by
    decide
  rw [hsplit]
  have hassoc :
      d.data ++ (['\n', '\n'] ++ (("Additional concerns" : String).data ++ [':', ' ']))
        ++ j.data
      = (d.data ++ ['\n', '\n'])
        ++ (("Additional concerns" : String).data ++ ([':', ' '] ++ j.data)) := by
    simp [List.append_assoc]
  rw [hassoc]
  exact listHasSub_of_append _ _ _

/-- C3: in `deduplicate_findings` every group of two or more findings at the
same `(file_path, line_number)` yields exactly one merged finding; its
severity is the most severe present (ties broken by stable input order —
`b` is the *first* group member of minimal severity rank, and the merged
finding inherits its severity), and its description contains an
"Additional concerns" note exactly when the group spans more than one
category.  In particular, the `high`/`medium` pair at `(app.py, 10)` merges
to a single `high` finding whose description contains
"Additional concerns". -/
theorem C3_merge_keeps_most_severe :
    (∀ (fs out : List Finding) (k : String × Int),
      deduplicate_findings fs = .ok out →
      2 ≤ (fs.filter (fun f => decide (groupKey f = k))).length →
      ∃ m b, out.filter (fun x => decide (groupKey x = k)) = [m] ∧
        firstBySeverity (fs.filter (fun f => decide (groupKey f = k))) = some b ∧
        m.severity = b.severity ∧
        (∀ f ∈ fs.filter (fun f => decide (groupKey f = k)),
          sevRank m.severity ≤ sevRank f.severity) ∧
        (1 < (distinctCats (fs.filter (fun f => decide (groupKey f = k)))).length →
          strHasSub "Additional concerns" m.description = true)) ∧
    deduplicate_findings [c9_high, c3_medium] = .ok [c3_merged] ∧
    c3_merged.severity = .high ∧
    strHasSub "Additional concerns" c3_merged.description = true := by
  constructor
  · intro fs out k h hlen
    have hgood := groupByKey_good fs
    have hlk : lookupGroup (groupByKey fs) k
        = fs.filter (fun f => decide (groupKey f = k)) := groupByKey_lookup fs k
    have hne : fs.filter (fun f => decide (groupKey f = k)) ≠ [] := by
      intro hc
      rw [hc] at hlen
      simp at hlen
    have hmem : (k, fs.filter (fun f => decide (groupKey f = k))) ∈ groupByKey fs := by
      have := @lookupGroup_mem (groupByKey fs) k (by rw [hlk]; exact hne)
      rwa [hlk] at this
    obtain ⟨m, hfil, hrel⟩ := dedupGroups_filter h hgood.1
      (fun p hp => (hgood.2 p hp).2) k _ hmem
    have hmerge : mergeGroup (fs.filter (fun f => decide (groupKey f = k))) = .ok m := by
      rcases hrel with hrel | hrel
      · exfalso
        rw [hrel] at hlen
        simp at hlen
      · exact hrel
    obtain ⟨b, hb, hfp, hln, hsev, hcat, hdesc⟩ := mergeGroup_ok hmerge
    refine ⟨m, b, hfil, hb, hsev, ?_, ?_⟩
    · intro f hf
      rw [hsev]
      exact firstBySeverity_min hb f hf
    · intro hc
      rw [if_pos hc] at hdesc
      rw [hdesc]
      exact strHasSub_concerns _ _
  · exact ⟨rfl, rfl, by decide⟩

/-- Witness for C3: the two-candidate group at `(app.py, 10)` with
severities `high` and `medium`. -/
theorem C3_witness :
    ∃ m b, ([c3_merged].filter (fun x => decide (groupKey x = ("app.py", 10)))) = [m] ∧
      firstBySeverity ([c9_high, c3_medium].filter
        (fun f => decide (groupKey f = ("app.py", 10)))) = some b ∧
      m.severity = b.severity ∧
      (∀ f ∈ [c9_high, c3_medium].filter (fun f => decide (groupKey f = ("app.py", 10))),
        sevRank m.severity ≤ sevRank f.severity) ∧
      (1 < (distinctCats ([c9_high, c3_medium].filter
          (fun f => decide (groupKey f = ("app.py", 10))))).length →
        strHasSub "Additional concerns" m.description = true) :=
  C3_merge_keeps_most_severe.1 [c9_high, c3_medium] [c3_merged] ("app.py", 10)
    rfl (by decide)

/-- C4: `deduplicate_findings` is idempotent — a deduplicated output has no
remaining `(file_path, line_number)` collisions, so regrouping it yields
only singleton groups, which pass through unchanged and in order. -/
theorem C4_dedup_idempotent (fs out : List Finding)
    (h : deduplicate_findings fs = .ok out) :
    deduplicate_findings out = .ok out := by
  have hgood := groupByKey_good fs
  have hkeys : out.map groupKey = (groupByKey fs).map Prod.fst :=
    dedupGroups_keys h (fun p hp => (hgood.2 p hp).2)
  have hnodup : (out.map groupKey).Nodup := by
    rw [hkeys]
    exact hgood.1
  show dedupGroups (groupByKey out) = .ok out
  rw [groupByKey_of_nodup hnodup]
  exact dedupGroups_singletons out

/-- Witness for C4: deduplicating the merged `(app.py, 10)` output again
returns it unchanged. -/
theorem C4_witness :
    deduplicate_findings [c9_high, c3_medium] = .ok [c3_merged] ∧
    deduplicate_findings [c3_merged] = .ok [c3_merged] :=
  ⟨rfl, C4_dedup_idempotent [c9_high, c3_medium] [c3_merged] rfl⟩

/-- C5 counterexample: the code's `sensitive_patterns` list also contains
`"key"` and `"secret"` (and uses `".env"`, not `"env"`), so the claim's
"and no other keyword" fails: `"monkey.py"` contains `"key"` and is counted
sensitive by the code but matches none of the claim's fourteen keywords,
making the code's blast radius 6.5 where the claim's formula gives 1.5. -/
theorem C5_counterexample :
    is_sensitive "monkey.py" = true ∧
    (spec_blast_keywords.any (fun p => strHasSub p (pyLower "monkey.py"))) = false ∧
    blast_radius c5_diff = 13/2 ∧
    spec_blast_radius c5_diff = 3/2 ∧
    blast_radius c5_diff ≠ spec_blast_radius c5_diff := by
  have h1 : blast_radius c5_diff = 13/2 := by
    have hs : sensitive_count c5_diff = 1 := by decide
    have hl : c5_diff.length = 1 := by decide
    unfold blast_radius
    rw [hs, hl]
    rw [min_eq_right (by norm_num)]
    norm_num
  have h2 : spec_blast_radius c5_diff = 3/2 := by
    have hz : (c5_diff.filter (fun f =>
        spec_blast_keywords.any (fun p => strHasSub p (pyLower f.filename)))).length
        = 0 := by decide
    have hl : c5_diff.length = 1 := by decide
    unfold spec_blast_radius
    rw [hz, hl]
    rw [min_eq_right (by norm_num)]
    norm_num
  refine ⟨by decide, by decide, h1, h2, ?_⟩
  rw [h1, h2]
  norm_num

/-- C5 amended: `blast_radius = min(15, 1.5·#files + 5·#sensitive)`, where
a file is sensitive exactly when its lower-cased path contains one of the
sixteen keywords auth, security, password, token, key, secret, payment,
billing, database, migration, config, .env, docker, ci, deploy, infra —
and no other keyword. -/
theorem C5_blast_radius_amended (diff : List FileData) :
    blast_radius diff =
      min 15 ((3:ℚ)/2 * diff.length +
        5 * ((diff.filter (fun f =>
          amended_blast_keywords.any (fun p => strHasSub p (pyLower f.filename)))).length : ℚ)) := by
  have hk : amended_blast_keywords = sensitive_patterns := rfl
  simp only [blast_radius, sensitive_count, is_sensitive, hk]
  congr 1
  ring

/-- C6: `compute_risk_score` returns a score in `[0,100]` equal to
`clamp(0, 100, round(heuristic + ai_adjustment))`, the AI adjustment is
clamped to `[-15, 15]` and defaults to 0 on any failure, and the label is
critical/high/medium/low at thresholds 80/60/35. -/
theorem C6_risk_score_clamped (diff : List FileData) (findings : List Finding)
    (aiResult : Option (ℚ × String)) :
    (0 ≤ (compute_risk_score diff findings aiResult).score ∧
      (compute_risk_score diff findings aiResult).score ≤ 100) ∧
    (compute_risk_score diff findings aiResult).score
      = max 0 (min 100 (pyRound ((heuristic_score diff findings : ℚ)
          + aiAdjustment (aiResult.map Prod.fst)))) ∧
    (-15 ≤ aiAdjustment (aiResult.map Prod.fst) ∧
      aiAdjustment (aiResult.map Prod.fst) ≤ 15) ∧
    (aiResult = none → aiAdjustment (aiResult.map Prod.fst) = 0) ∧
    (compute_risk_score diff findings aiResult).label
      = (if 80 ≤ (compute_risk_score diff findings aiResult).score then "critical"
         else if 60 ≤ (compute_risk_score diff findings aiResult).score then "high"
         else if 35 ≤ (compute_risk_score diff findings aiResult).score then "medium"
         else "low") := by
  have hscore : (compute_risk_score diff findings aiResult).score
      = pyRound (max 0 (min 100 ((heuristic_score diff findings : ℚ)
          + aiAdjustment (aiResult.map Prod.fst)))) := rfl
  have hcomm := pyRound_clamp_comm ((heuristic_score diff findings : ℚ)
      + aiAdjustment (aiResult.map Prod.fst))
  refine ⟨?_, ?_, ?_, ?_, ?_⟩
  · rw [hscore, hcomm]
    exact ⟨le_max_left _ _, max_le (by norm_num) (min_le_left _ _)⟩
  · rw [hscore, hcomm]
  · cases aiResult with
    | none =>
      constructor
      · show (-15 : ℚ) ≤ 0
        norm_num
      · show (0 : ℚ) ≤ 15
        norm_num
    | some p =>
      exact ⟨le_max_left _ _, max_le (by norm_num) (min_le_left _ _)⟩
  · intro h
    subst h
    rfl
  · rfl

/-- Witness for C6: with no AI refinement (`none`), the adjustment is 0 and
the score of a concrete run stays within `[0, 100]`. -/
theorem C6_witness :
    aiAdjustment ((none : Option (ℚ × String)).map Prod.fst) = 0 ∧
    (0 ≤ (compute_risk_score c5_diff [c9_high] none).score ∧
      (compute_risk_score c5_diff [c9_high] none).score ≤ 100) :=
  ⟨(C6_risk_score_clamped c5_diff [c9_high] none).2.2.2.1 rfl,
   (C6_risk_score_clamped c5_diff [c9_high] none).1⟩

/-- C8: for every `loads` oracle and every raw model response, every
finding produced by `_parse_llm_response` satisfies the AI-finding
invariant — unrecognized severity strings fall back to `medium`,
unrecognized categories to `bug`, so `info` / `documentation` can never
appear. -/
theorem C8_parser_invariants (loads : String → Option PyJson)
    (response filename : String) :
    (parse_llm_response loads response filename).all ai_finding_invariant = true := by
  rw [List.all_eq_true]
  intro f hf
  obtain ⟨j, hj⟩ := parse_llm_response_mem hf
  obtain ⟨h1, h2, h3, h4, -⟩ := parseItem_finding hj
  simp [ai_finding_invariant, h1, h2, h3, h4]

/-- C10 counterexample: `line_number` only *defaults* to 0 — a cross-file
response item carrying an explicit `line_number` keeps it, so two cross-file
findings with line numbers 0 and 7 occupy different dedup keys and both
survive: it is false that all cross-file findings group under
`("cross-file-analysis", 0)` with at most one survivor. -/
theorem C10_counterexample :
    analyze_cross_file_findings c10_loads "[]" = [c10_finding 0, c10_finding 7] ∧
    deduplicate_findings [c10_finding 0, c10_finding 7]
      = .ok [c10_finding 0, c10_finding 7] ∧
    ([c10_finding 0, c10_finding 7].filter
      (fun f => f.file_path == "cross-file-analysis")).length = 2 ∧
    (c10_finding 7).line_number ≠ 0 := by
  exact ⟨by decide, rfl, by decide, by decide⟩

/-- C10 amended: every cross-file impact finding carries file_path
`"cross-file-analysis"`; `line_number` defaults to 0 when the response item
omits it; and for each fixed `(file_path, line_number)` key — in particular
`("cross-file-analysis", 0)` — at most one finding survives deduplication. -/
theorem C10_cross_file_key (loads : String → Option PyJson) :
    (∀ response : String,
      (analyze_cross_file_findings loads response).all
        (fun f => f.file_path == "cross-file-analysis") = true) ∧
    (∀ (filename : String) (fields : List (String × PyJson)) (f : Finding),
      objGet fields "line_number" = none →
      parseItem filename (.obj fields) = .finding f → f.line_number = 0) ∧
    (∀ (fs out : List Finding), deduplicate_findings fs = .ok out →
      (out.filter (fun f => decide (groupKey f = ("cross-file-analysis", 0)))).length ≤ 1) := by
  refine ⟨?_, ?_, ?_⟩
  · intro response
    rw [List.all_eq_true]
    intro f hf
    obtain ⟨j, hj⟩ := parse_llm_response_mem hf
    obtain ⟨-, -, -, -, h5⟩ := parseItem_finding hj
    simp [h5]
  · intro filename fields f hno h
    exact parseItem_line_default hno h
  · intro fs out h
    have hgood := groupByKey_good fs
    have hkeys : out.map groupKey = (groupByKey fs).map Prod.fst :=
      dedupGroups_keys h (fun p hp => (hgood.2 p hp).2)
    have hnodup : (out.map groupKey).Nodup := by
      rw [hkeys]
      exact hgood.1
    exact nodup_map_filter_len_le_one hnodup _

/-- Witness for C10: a cross-file item without a `line_number` field parses
to a finding at `("cross-file-analysis", 0)`, and deduplication keeps at
most one finding under that key. -/
theorem C10_witness :
    ((analyze_cross_file_findings (fun _ => some (.arr [c10_default_item])) "[]").all
      (fun f => f.file_path == "cross-file-analysis") = true) ∧
    c10_default_finding.line_number = 0 ∧
    (([c10_default_finding].filter
      (fun f => decide (groupKey f = ("cross-file-analysis", 0)))).length ≤ 1) :=
  ⟨(C10_cross_file_key (fun _ => some (.arr [c10_default_item]))).1 "[]",
   (C10_cross_file_key (fun _ => some (.arr [c10_default_item]))).2.1
     "cross-file-analysis"
     [("title", PyJson.str "Missing test updates"),
      ("description", PyJson.str "No tests changed")]
     c10_default_finding rfl rfl,
   (C10_cross_file_key (fun _ => some (.arr [c10_default_item]))).2.2
     [c10_default_finding] [c10_default_finding] rfl⟩

end CodeReview

